import Mathlib

/-!
Shallow embedding of the lobbying-analysis script (src/Untitled-2.py).

The script fetches lobbying-disclosure filings from a paginated HTTP API
(function `fetch`), then (function `main`) filters fetched records to those
with a truthy, float-parseable `income` field, sorts descending by the
parsed amount, selects every record whose amount is among the top 3
distinct amounts, prints a report and serializes the selection to
`top_filings.json`.

Modelling conventions:
* Python floats are modelled as rationals (ℚ); `float(s)` is embedded as
  `parseFloat`, a decimal-literal parser (optional sign, digits with an
  optional fractional part, optional exponent, surrounding whitespace
  stripped).  The special forms `inf`, `nan` and digit-group underscores
  accepted by CPython do not occur in this data source and are omitted.
* A JSON field that is absent or `null` is `none` (Python `dict.get`
  returns `None` in both cases).
* HTTP traffic is modelled by response traces supplied by the environment;
  `time.sleep` calls are logged as durations.
-/

namespace Lobby

/-- Raw filing object as returned by the API; only the fields the script
reads are modelled.  `registrant_name` stands for `registrant.name`;
`lobbyists` is the list of the `name` fields of the lobbyist objects. -/
structure RawFiling where
  income : Option String
  registrant_name : Option String
  dt_posted : Option String
  lobbyists : List (Option String)
deriving DecidableEq

/-- Record appended to `filings` by the loop body in `main`
(lines 113-120 of the script). -/
structure Ranked where
  ticker : String
  client : String
  firm : String
  amount : ℚ
  date : String
  lobbyists : List String
deriving DecidableEq

/-- Value of a digit character. -/
def digitVal (c : Char) : Nat := c.toNat - 48

/-- Value of a digit string, most significant first. -/
def digitsVal (cs : List Char) : Nat := cs.foldl (fun n c => n * 10 + digitVal c) 0

/-- Split a character list at the first character satisfying `p`:
returns the prefix before it and, when found, the remainder after it. -/
def splitAtChar (p : Char → Bool) : List Char → List Char × Option (List Char)
  | [] => ([], none)
  | c :: t =>
    if p c then ([], some t)
    else
      let r := splitAtChar p t
      (c :: r.1, r.2)

/-- Strip whitespace from both ends (Python `float` ignores surrounding
whitespace). -/
def trimChars (cs : List Char) : List Char :=
  ((cs.dropWhile (·.isWhitespace)).reverse.dropWhile (·.isWhitespace)).reverse

/-- Parse an exponent part: optional sign followed by at least one digit. -/
def parseExp (cs : List Char) : Option Int :=
  match cs with
  | '+' :: t => if !t.isEmpty && t.all (·.isDigit) then some (digitsVal t) else none
  | '-' :: t => if !t.isEmpty && t.all (·.isDigit) then some (-(digitsVal t : Int)) else none
  | t => if !t.isEmpty && t.all (·.isDigit) then some (digitsVal t) else none

/-- Embedding of Python `float(s)` on finite decimal literals: strips
whitespace, accepts an optional sign, digits with an optional decimal
point (at least one digit overall) and an optional exponent; any other
input raises `ValueError`, modelled as `none`. -/
def parseFloat (s : String) : Option ℚ :=
  let cs := trimChars s.data
  let signAndRest : ℚ × List Char :=
    match cs with
    | '-' :: t => (-1, t)
    | '+' :: t => (1, t)
    | t => (1, t)
  let (mcs, ecs) := splitAtChar (fun c => c == 'e' || c == 'E') signAndRest.2
  let (ip, fpOpt) := splitAtChar (· == '.') mcs
  let fp := fpOpt.getD []
  if ip.all (·.isDigit) && fp.all (·.isDigit) && !(ip.isEmpty && fp.isEmpty) then
    let m : ℚ := (digitsVal ip : ℚ) + (digitsVal fp : ℚ) / (10 : ℚ) ^ fp.length
    match ecs with
    | none => some (signAndRest.1 * m)
    | some e =>
      match parseExp e with
      | some z => some (signAndRest.1 * m * (10 : ℚ) ^ z)
      | none => none
  else none

/-- Truthiness of the optional `income` string: `if f.get("income"):` is
false exactly for an absent/null field or the empty string. -/
def truthy : Option String → Bool
  | none => false
  | some s => !s.isEmpty

/-- Lobbyist-name extraction (line 119):
`[l["name"] for l in f.get("lobbyists", []) if l.get("name")]` —
keeps the names that are present and non-empty, in order. -/
def keptNames (ls : List (Option String)) : List String :=
  ls.filterMap fun l =>
    match l with
    | some n => if n.isEmpty then none else some n
    | none => none

/-- Body of the collection loop in `main` (lines 111-122): a fetched
filing contributes a `Ranked` record iff its `income` field is truthy and
parses as a float; a `ValueError` from `float` is swallowed (`none`). -/
def mkRanked (ticker client : String) (f : RawFiling) : Option Ranked :=
  if truthy f.income then
    match f.income with
    | none => none
    | some s =>
      match parseFloat s with
      | none => none
      | some q =>
        some { ticker := ticker
               client := client
               firm := f.registrant_name.getD "?"
               amount := q
               date := (f.dt_posted.getD "").take 10
               lobbyists := keptNames f.lobbyists }
  else none

example : parseFloat "1000000" = some 1000000 := by
  simp [parseFloat, trimChars, splitAtChar, digitsVal, digitVal]

example : parseFloat "500000.25" = some (2000001/4) := by
  simp [parseFloat, trimChars, splitAtChar, digitsVal, digitVal]; norm_num

example : parseFloat "abc" = none := by
  simp [parseFloat, trimChars, splitAtChar]

example : parseFloat "" = none := by
  simp [parseFloat, trimChars, splitAtChar]

example : parseFloat "-2.5e2" = some (-250) := by
  simp [parseFloat, trimChars, splitAtChar, digitsVal, digitVal, parseExp]; norm_num

/-! HTTP layer.  The script issues `requests.get(url, params=params)`; a
request is the pair of the URL and the optional query parameters (after
the first page the server-supplied `next` URL is used verbatim and
`params` is `None`). -/

/-- Query parameters of a first-page request (lines 73-78). -/
structure Query where
  client_name : String
  filing_year : Nat
  filing_period : String
deriving DecidableEq

/-- A request: URL plus optional query parameters. -/
structure Req where
  url : String
  params : Option Query
deriving DecidableEq

/-- API endpoint (line 14). -/
def API_URL : String := "https://lda.senate.gov/api/v1/filings/"

/-- Courtesy delay between successful page fetches, in seconds (line 16,
`DELAY = 1.0`). -/
def DELAY : ℚ := 1

/-- An HTTP response as the script consumes it: status code and, for a
200 response, the parsed JSON body's `results` array and optional `next`
URL.  (`results`/`next` of a non-200 response are never read.) -/
structure HResp where
  status : Nat
  results : List RawFiling
  next : Option String
deriving DecidableEq

/-- Observable outcome of one period filter's pagination loop: the
records accumulated, the requests issued (in order) and the sleeps
performed (in seconds). -/
structure FetchOut where
  records : List RawFiling
  reqs : List Req
  sleeps : List ℚ
deriving DecidableEq

/-- The inner `while url:` loop of `fetch` (lines 82-95), run against a
finite trace of HTTP responses (the environment answers the n-th request
issued with the n-th trace element):
status 429 sleeps 10 s and retries the same request; any other non-200
status breaks out of the loop; a 200 response contributes its `results`,
sleeps `DELAY` and follows the `next` URL (with no parameters) if
present.  An exhausted trace ends the run. -/
def fetchFilterAux (req : Req) : List HResp → FetchOut
  | [] => ⟨[], [], []⟩
  | r :: rest =>
    if r.status = 429 then
      let o := fetchFilterAux req rest
      ⟨o.records, req :: o.reqs, 10 :: o.sleeps⟩
    else if r.status ≠ 200 then
      ⟨[], [req], []⟩
    else
      match r.next with
      | none => ⟨r.results, [req], [DELAY]⟩
      | some u =>
        let o := fetchFilterAux ⟨u, none⟩ rest
        ⟨r.results ++ o.records, req :: o.reqs, DELAY :: o.sleeps⟩

/-- The four fiscal-year period filters for a client (lines 73-78). -/
def queries (client : String) : List Query :=
  [ ⟨client, 2023, "fourth_quarter"⟩,
    ⟨client, 2024, "first_quarter"⟩,
    ⟨client, 2024, "second_quarter"⟩,
    ⟨client, 2024, "third_quarter"⟩ ]

/-- First-page request of a period filter: the API URL with the query as
parameters (lines 81-83). -/
def initReq (q : Query) : Req := ⟨API_URL, some q⟩

/-- The function `fetch(client)` (lines 68-98): run the pagination loop
for each of the four period filters in order, against the response
traces supplied by the environment, and concatenate all records. -/
def fetch (client : String) (env : Query → List HResp) : List RawFiling :=
  (queries client).flatMap fun q => (fetchFilterAux (initReq q) (env q)).records

/-- The ticker list (lines 19-29). -/
def TICKERS : List String :=
  [ "TCMD", "AORT", "PODD", "NEE", "AAPL", "ABT", "ADBE", "AMAT", "AMD", "AMZN",
    "AXON", "AXP", "AZO", "BLK", "BMI", "BRK.B", "BSX", "CAT", "CELH", "CMG",
    "CMCSA", "COP", "COST", "CRM", "CSX", "CTVA", "CVX", "CYBR", "DE", "ELF",
    "ELV", "EMR", "ETN", "EW", "EXLS", "FCFS", "FI", "FN", "FRPT", "GS",
    "GOOGL", "HD", "HLT", "HON", "HUBB", "ICE", "INST", "IQV", "JPM", "KO",
    "LLY", "LRCX", "LRN", "MA", "META", "MSFT", "NKE", "NVDA", "OLLI", "PANW",
    "PEP", "PG", "PH", "PYPL", "RTX", "SBUX", "SFM", "SHOP", "SHW", "SPGI",
    "STZ", "TJX", "TMO", "TXN", "UNH", "UNP", "VLTO", "ZTS", "CEQP", "DDOG",
    "ETRN", "LSXMK", "FWONK", "LINE", "BATRK" ]

/-- The ticker-to-client-name map (lines 32-62), as an association list
(the dict literal has pairwise-distinct keys, so lookup order is
irrelevant). -/
def CLIENTS : List (String × String) :=
  [ ("TCMD", "Tactile Medical"), ("AORT", "Artivion"), ("PODD", "Insulet"),
    ("NEE", "NextEra Energy"), ("AAPL", "Apple"), ("ABT", "Abbott"),
    ("ADBE", "Adobe"), ("AMAT", "Applied Materials"), ("AMD", "Advanced Micro Devices"),
    ("AMZN", "Amazon"), ("AXON", "Axon"), ("AXP", "American Express"),
    ("AZO", "AutoZone"), ("BLK", "BlackRock"), ("BMI", "Badger Meter"),
    ("BRK.B", "Berkshire Hathaway"), ("BSX", "Boston Scientific"), ("CAT", "Caterpillar"),
    ("CELH", "Celsius Holdings"), ("CMG", "Chipotle"), ("CMCSA", "Comcast"),
    ("COP", "ConocoPhillips"), ("COST", "Costco"), ("CRM", "Salesforce"),
    ("CSX", "CSX"), ("CTVA", "Corteva"), ("CVX", "Chevron"),
    ("CYBR", "CyberArk"), ("DE", "Deere"), ("ELF", "e.l.f. Beauty"),
    ("ELV", "Elevance Health"), ("EMR", "Emerson"), ("ETN", "Eaton"),
    ("EW", "Edwards Lifesciences"), ("EXLS", "ExlService"), ("FCFS", "FirstCash"),
    ("FI", "Fiserv"), ("FN", "Fabrinet"), ("FRPT", "Freshpet"),
    ("GS", "Goldman Sachs"), ("GOOGL", "Google"), ("HD", "Home Depot"),
    ("HLT", "Hilton"), ("HON", "Honeywell"), ("HUBB", "Hubbell"),
    ("ICE", "Intercontinental Exchange"), ("INST", "Instructure"), ("IQV", "IQVIA"),
    ("JPM", "JPMorgan"), ("KO", "Coca-Cola"), ("LLY", "Eli Lilly"),
    ("LRCX", "Lam Research"), ("LRN", "Stride"), ("MA", "Mastercard"),
    ("META", "Meta"), ("MSFT", "Microsoft"), ("NKE", "Nike"),
    ("NVDA", "NVIDIA"), ("OLLI", "Ollie's"), ("PANW", "Palo Alto Networks"),
    ("PEP", "PepsiCo"), ("PG", "Procter & Gamble"), ("PH", "Parker Hannifin"),
    ("PYPL", "PayPal"), ("RTX", "RTX"), ("SBUX", "Starbucks"),
    ("SFM", "Sprouts Farmers Market"), ("SHOP", "Shopify"), ("SHW", "Sherwin-Williams"),
    ("SPGI", "S&P Global"), ("STZ", "Constellation Brands"), ("TJX", "TJX"),
    ("TMO", "Thermo Fisher"), ("TXN", "Texas Instruments"), ("UNH", "UnitedHealth"),
    ("UNP", "Union Pacific"), ("VLTO", "Veralto"), ("ZTS", "Zoetis"),
    ("CEQP", "Crestwood Equity"), ("DDOG", "Datadog"), ("ETRN", "Equitrans"),
    ("LSXMK", "Liberty Media"), ("FWONK", "Liberty Media"), ("LINE", "Lineage"),
    ("BATRK", "Liberty Media") ]

/-- Dictionary lookup `CLIENTS.get(ticker)` (line 106). -/
def lookupClient (ticker : String) : Option String :=
  (CLIENTS.find? fun p => p.1 = ticker).map (·.2)

/-- Record collection over one ticker list: for each ticker, skip it when
it has no client name, otherwise fetch the client's filings and keep the
records whose income parses (lines 105-122). -/
def collectAux (env : String → Query → List HResp) : List String → List Ranked
  | [] => []
  | ticker :: rest =>
    (match lookupClient ticker with
     | none => []
     | some client => (fetch client (env client)).filterMap (mkRanked ticker client))
      ++ collectAux env rest

/-- The accumulated `filings` list of `main` just before sorting
(line 123), as a function of the HTTP environment (which maps a client
name and a period-filter query to that filter's response trace). -/
def collect (env : String → Query → List HResp) : List Ranked :=
  collectAux env TICKERS

/-- Descending stable sort by amount: `filings.sort(key=..., reverse=True)`
(line 125).  Python list sort is stable; with `reverse=True` it orders by
strictly greater amount first and preserves the original relative order
of records with equal amounts, which is exactly `mergeSort` with the
total boolean relation "left amount is at least right amount". -/
def sortFilings (l : List Ranked) : List Ranked :=
  l.mergeSort fun a b => b.amount ≤ a.amount

/-- Top three distinct amounts:
`sorted(set(f["amount"] for f in filings), reverse=True)[:3]` (line 128). -/
def topAmounts (l : List Ranked) : List ℚ :=
  (((l.map (·.amount)).dedup).mergeSort fun a b => b ≤ a).take 3

/-- The selection `top` (lines 125-129): sort the filings descending by
amount, then keep every record whose amount is among the top three
distinct amounts. -/
def rank (filings : List Ranked) : List Ranked :=
  let sorted := sortFilings filings
  sorted.filter fun f => f.amount ∈ topAmounts sorted

/-- Comma join, embedding Python `", ".join(names)`. -/
def joinComma : List String → String
  | [] => ""
  | [a] => a
  | a :: rest => a ++ ", " ++ joinComma rest

/-- Console lobbyist line of a selected record (line 136):
`', '.join(f['lobbyists'][:5]) or 'N/A'` — the displayed list is capped
at the first five names; the `or` replaces an empty join with "N/A". -/
def lobbyistDisplay (r : Ranked) : String :=
  let j := joinComma (r.lobbyists.take 5)
  if j = "" then "N/A" else j

/-- Console report of the lobbyist lines, in output order (lines 133-137). -/
def consoleLobbyistLines (env : String → Query → List HResp) : List String :=
  (rank (collect env)).map lobbyistDisplay

/-- Data serialized to `top_filings.json` (lines 140-141): `json.dump`
receives the `top` list itself, each record with its full (uncapped)
lobbyist list. -/
def outputFile (env : String → Query → List HResp) : List Ranked :=
  rank (collect env)

/-! Theorems. -/

/-- Characterization of the loop body: a fetched filing yields a record
exactly when its income field is a non-empty string that parses as a
float, and then every field of the record is determined. -/
theorem mkRanked_eq_some (t c : String) (f : RawFiling) (r : Ranked) :
    mkRanked t c f = some r ↔
      ∃ s q, f.income = some s ∧ s.isEmpty = false ∧ parseFloat s = some q ∧
        r = ⟨t, c, f.registrant_name.getD "?", q,
             (f.dt_posted.getD "").take 10, keptNames f.lobbyists⟩ := by
  unfold mkRanked
  cases hi : f.income with
  | none => simp [truthy]
  | some s =>
    cases hse : s.isEmpty with
    | false =>
      cases hp : parseFloat s with
      | none => simp [truthy, hse, hp]
      | some q =>
        simp only [truthy, hse, Bool.not_false, if_true, hp,
          Option.some.injEq, Option.some_inj]
        constructor
        · intro h; exact ⟨s, q, rfl, hse, hp, h.symm⟩
        · rintro ⟨s2, q2, rfl, -, hp2, hr⟩
          obtain rfl : q = q2 := by rw [hp] at hp2; exact Option.some_inj.mp hp2
          exact hr.symm
    | true => simp [truthy, hse]

/-- C2: a fetched filing whose `income` field is absent (or null) or does
not parse as a float contributes no record: the loop body yields `none`
and no error is raised (the embedding is total; the script swallows the
`ValueError`).  Since `collect` only adds records through `mkRanked`, the
output never contains a record built from such a filing. -/
theorem unparseable_income_excluded (t c : String) (f : RawFiling)
    (h : f.income = none ∨ ∃ s, f.income = some s ∧ parseFloat s = none) :
    mkRanked t c f = none := by
  rcases h with h | ⟨s, hs, hp⟩
  · simp [mkRanked, truthy, h]
  · unfold mkRanked
    rw [hs]
    cases hse : s.isEmpty with
    | true => simp [truthy, hse]
    | false => simp [truthy, hse, hp]

/-- Witness for C2: the filing with income `"abc"` (the spec's scenario)
is dropped. -/
theorem unparseable_income_excluded_witness :
    mkRanked "AAPL" "Apple" ⟨some "abc", none, none, []⟩ = none :=
  unparseable_income_excluded "AAPL" "Apple" ⟨some "abc", none, none, []⟩
    (Or.inr ⟨"abc", rfl, by simp [parseFloat, trimChars, splitAtChar]⟩)

/-- C8: the date of every ranked record is the first 10 characters of the
source filing's `dt_posted` string — the whole string when it is shorter
than 10 characters, the empty string when the field is absent; pure
truncation, with no parsing or validation. -/
theorem date_is_truncation (t c : String) (f : RawFiling) (r : Ranked)
    (h : mkRanked t c f = some r) :
    (f.dt_posted = none → r.date = "") ∧
    (∀ s, f.dt_posted = some s →
      r.date = s.take 10 ∧ r.date.length = min 10 s.length ∧
      (s.length ≤ 10 → r.date = s)) := by
  obtain ⟨s, q, -, -, -, rfl⟩ := (mkRanked_eq_some t c f r).mp h
  constructor
  · intro hd
    dsimp only
    rw [hd, Option.getD_none, String.take_eq]
    rfl
  · intro d hd
    dsimp only
    rw [hd, Option.getD_some]
    refine ⟨rfl, ?_, fun hlen => ?_⟩
    · rw [String.take_eq, String.length_mk, List.length_take]
      rfl
    · exact String.ext (by
        rw [String.data_take]
        exact List.take_of_length_le (show List.length d.data ≤ 10 from hlen))

/-- Run of the pagination loop over any block of consecutive 429
responses: each one re-issues the same request after a 10-second sleep,
and the records eventually collected are exactly those collected without
the 429 block. -/
theorem fetchFilterAux_429s (req : Req) (rest : List HResp) :
    ∀ pre : List HResp, (∀ x ∈ pre, x.status = 429) →
      fetchFilterAux req (pre ++ rest) =
        ⟨(fetchFilterAux req rest).records,
         (pre.map fun _ => req) ++ (fetchFilterAux req rest).reqs,
         (pre.map fun _ => (10 : ℚ)) ++ (fetchFilterAux req rest).sleeps⟩
  | [], _ => by simp
  | x :: tl, hpre => by
    have hx : x.status = 429 := hpre x (List.mem_cons_self x tl)
    have ih := fetchFilterAux_429s req rest tl
      (fun y hy => hpre y (List.mem_cons_of_mem x hy))
    simp [fetchFilterAux, hx, ih]

/-- C4: rate-limit handling of the pagination loop (lines 85-88).  Any
run of consecutive HTTP 429 responses makes the loop sleep a fixed 10
seconds per response and re-issue the very same request (same URL and
same parameters), and no records are lost: the outcome records are those
of the run without the 429 responses.  429 is the only retried
condition: a non-429 non-200 response ends the filter after that single
request, and a 200 response either ends the filter (no `next`) or
advances to the `next` URL — it never re-issues the same request by
itself. -/
theorem rate_limit_retries_same_request (req : Req) (rest : List HResp)
    (pre : List HResp) (hpre : ∀ x ∈ pre, x.status = 429) :
    fetchFilterAux req (pre ++ rest) =
      ⟨(fetchFilterAux req rest).records,
       (pre.map fun _ => req) ++ (fetchFilterAux req rest).reqs,
       (pre.map fun _ => (10 : ℚ)) ++ (fetchFilterAux req rest).sleeps⟩ ∧
    (∀ r : HResp, r.status ≠ 429 → r.status ≠ 200 →
        fetchFilterAux req (r :: rest) = ⟨[], [req], []⟩) ∧
    (∀ r : HResp, r.status = 200 → r.next = none →
        fetchFilterAux req (r :: rest) = ⟨r.results, [req], [DELAY]⟩) ∧
    (∀ (r : HResp) (u : String), r.status = 200 → r.next = some u →
        fetchFilterAux req (r :: rest) =
          ⟨r.results ++ (fetchFilterAux ⟨u, none⟩ rest).records,
           req :: (fetchFilterAux ⟨u, none⟩ rest).reqs,
           DELAY :: (fetchFilterAux ⟨u, none⟩ rest).sleeps⟩) := by
  refine ⟨fetchFilterAux_429s req rest pre hpre, ?_, ?_, ?_⟩
  · intro r h429 h200
    simp [fetchFilterAux, h429, h200]
  · intro r h200 hnext
    simp [fetchFilterAux, h200, hnext]
  · intro r u h200 hnext
    simp [fetchFilterAux, h200, hnext]

/-- Run of the pagination loop over a block of successful pages followed
by a failing (non-429, non-200) response: exactly the successful pages'
records are collected; everything after the failure is ignored. -/
theorem fetchFilterAux_pages_then_break (s : Nat) (hs429 : s ≠ 429)
    (hs200 : s ≠ 200) (body : List RawFiling) (nxt : Option String)
    (tail : List HResp) :
    ∀ (pages : List (List RawFiling × String)) (req : Req),
      (fetchFilterAux req
          ((pages.map fun p => ⟨200, p.1, some p.2⟩) ++ ⟨s, body, nxt⟩ :: tail)).records
        = (pages.map (·.1)).flatten
  | [], req => by simp [fetchFilterAux, hs429, hs200]
  | p :: tl, req => by
    have ih := fetchFilterAux_pages_then_break s hs429 hs200 body nxt tail tl ⟨p.2, none⟩
    simp [fetchFilterAux, ih]

/-- C5: a non-success HTTP status other than 429 stops pagination for the
current period filter only (lines 89-90).  When the fourth-quarter
filter's trace is some successful pages followed by a failing status, the
fetched sequence is exactly those pages' records followed by the records
of the three remaining period filters, which are still processed — no
exception is raised (the embedding is a total function).  The second
conjunct shows the per-entity loop likewise continues with the remaining
entities after any entity's records are collected. -/
theorem http_error_truncates_filter_only (client : String)
    (env : Query → List HResp) (pages : List (List RawFiling × String))
    (s : Nat) (body : List RawFiling) (nxt : Option String)
    (tail : List HResp) (hs429 : s ≠ 429) (hs200 : s ≠ 200)
    (henv : env ⟨client, 2023, "fourth_quarter"⟩
      = (pages.map fun p => ⟨200, p.1, some p.2⟩) ++ ⟨s, body, nxt⟩ :: tail) :
    fetch client env
      = (pages.map (·.1)).flatten
        ++ ((fetchFilterAux (initReq ⟨client, 2024, "first_quarter"⟩)
              (env ⟨client, 2024, "first_quarter"⟩)).records
        ++ ((fetchFilterAux (initReq ⟨client, 2024, "second_quarter"⟩)
              (env ⟨client, 2024, "second_quarter"⟩)).records
        ++ (fetchFilterAux (initReq ⟨client, 2024, "third_quarter"⟩)
              (env ⟨client, 2024, "third_quarter"⟩)).records)) ∧
    (∀ (envAll : String → Query → List HResp) (t : String) (ts : List String),
      collectAux envAll (t :: ts)
        = (match lookupClient t with
           | none => []
           | some cl => (fetch cl (envAll cl)).filterMap (mkRanked t cl))
          ++ collectAux envAll ts) := by
  constructor
  · have h1 := fetchFilterAux_pages_then_break s hs429 hs200 body nxt tail pages
      (initReq ⟨client, 2023, "fourth_quarter"⟩)
    simp only [fetch, queries, List.flatMap_cons, List.flatMap_nil, List.append_nil]
    rw [henv, h1]
  · intro envAll t ts
    rfl

/-! Termination of the pagination loop.  To reason about possible
non-termination of `while url:` (lines 82-95) the loop is also embedded
with an oracle answering the n-th request issued during the filter and an
explicit fuel bound; the loop terminates exactly when some fuel
suffices. -/

/-- A response ends the loop iff it is a non-429 non-200 status (break)
or a successful page with no `next` pointer (url becomes None). -/
def isExit (r : HResp) : Bool :=
  if r.status = 429 then false
  else if r.status ≠ 200 then true
  else r.next.isNone

/-- The pagination loop, where `oracle i` is the response to the i-th
request issued for this filter and the first argument is remaining fuel:
`none` means the loop did not finish within the given number of
requests. -/
def loopFuel (oracle : Nat → HResp) :
    Nat → Nat → Req → List RawFiling → Option (List RawFiling)
  | 0, _, _, _ => none
  | fuel + 1, i, req, acc =>
    let r := oracle i
    if r.status = 429 then loopFuel oracle fuel (i + 1) req acc
    else if r.status ≠ 200 then some acc
    else
      match r.next with
      | none => some (acc ++ r.results)
      | some u => loopFuel oracle fuel (i + 1) ⟨u, none⟩ (acc ++ r.results)

/-- Sufficient fuel: if some response within the fuel bound is an exit
response, the loop finishes. -/
theorem loopFuel_isSome (oracle : Nat → HResp) :
    ∀ (fuel i : Nat) (req : Req) (acc : List RawFiling),
      (∃ k, k < fuel ∧ isExit (oracle (i + k)) = true) →
      (loopFuel oracle fuel i req acc).isSome
  | 0, i, req, acc, h => by
    obtain ⟨k, hk, -⟩ := h
    exact absurd hk (Nat.not_lt_zero k)
  | fuel + 1, i, req, acc, h => by
    obtain ⟨k, hk, hex⟩ := h
    by_cases h429 : (oracle i).status = 429
    · have hk0 : k ≠ 0 := by
        intro rfl0
        subst rfl0
        simp only [Nat.add_zero] at hex
        simp [isExit, h429] at hex
      obtain ⟨k2, rfl⟩ := Nat.exists_eq_succ_of_ne_zero hk0
      have := loopFuel_isSome oracle fuel (i + 1) req acc
        ⟨k2, Nat.lt_of_succ_lt_succ hk, by
          have : i + 1 + k2 = i + (k2 + 1) := by omega
          rw [this]; exact hex⟩
      simpa [loopFuel, h429] using this
    · by_cases h200 : (oracle i).status = 200
      · cases hn : (oracle i).next with
        | none => simp [loopFuel, h429, h200, hn]
        | some u =>
          have hk0 : k ≠ 0 := by
            intro rfl0
            subst rfl0
            simp only [Nat.add_zero] at hex
            simp [isExit, h429, h200, hn] at hex
          obtain ⟨k2, rfl⟩ := Nat.exists_eq_succ_of_ne_zero hk0
          have := loopFuel_isSome oracle fuel (i + 1) ⟨u, none⟩
            (acc ++ (oracle i).results)
            ⟨k2, Nat.lt_of_succ_lt_succ hk, by
              have : i + 1 + k2 = i + (k2 + 1) := by omega
              rw [this]; exact hex⟩
          simpa [loopFuel, h429, h200, hn] using this
      · simp [loopFuel, h429, h200]

/-- Necessary condition: if no response is ever an exit response, no
amount of fuel finishes the loop. -/
theorem loopFuel_none (oracle : Nat → HResp) :
    ∀ (fuel i : Nat) (req : Req) (acc : List RawFiling),
      (∀ k, isExit (oracle (i + k)) = false) →
      loopFuel oracle fuel i req acc = none
  | 0, _, _, _, _ => rfl
  | fuel + 1, i, req, acc, h => by
    have h0 := h 0
    simp only [Nat.add_zero] at h0
    by_cases h429 : (oracle i).status = 429
    · have := loopFuel_none oracle fuel (i + 1) req acc
        (fun k => by
          have : i + 1 + k = i + (k + 1) := by omega
          rw [this]; exact h (k + 1))
      simpa [loopFuel, h429] using this
    · by_cases h200 : (oracle i).status = 200
      · cases hn : (oracle i).next with
        | none => simp [isExit, h429, h200, hn] at h0
        | some u =>
          have := loopFuel_none oracle fuel (i + 1) ⟨u, none⟩
            (acc ++ (oracle i).results)
            (fun k => by
              have : i + 1 + k = i + (k + 1) := by omega
              rw [this]; exact h (k + 1))
          simpa [loopFuel, h429, h200, hn] using this
      · simp [isExit, h429, h200] at h0

/-- C10: the pagination loop for a period filter terminates if and only
if some request position receives an exit response: a non-429 failure or
a successful page without a `next` pointer.  In particular there is no
retry cap: a server that answers 429 forever, or success-with-next
forever, makes `fetch` loop without terminating (second and third
conjuncts). -/
theorem pagination_terminates_iff (oracle : Nat → HResp) (req : Req) :
    ((∃ fuel out, loopFuel oracle fuel 0 req [] = some out)
      ↔ (∃ n, isExit (oracle n) = true)) ∧
    ((∀ n, (oracle n).status = 429) →
      ∀ fuel, loopFuel oracle fuel 0 req [] = none) ∧
    ((∀ n, (oracle n).status = 200 ∧ ∃ u, (oracle n).next = some u) →
      ∀ fuel, loopFuel oracle fuel 0 req [] = none) := by
  refine ⟨⟨?_, ?_⟩, ?_, ?_⟩
  · rintro ⟨fuel, out, hout⟩
    by_contra hno
    push_neg at hno
    have hall : ∀ k, isExit (oracle k) = false := by
      intro k
      have := hno k
      revert this
      cases isExit (oracle k) <;> simp
    have := loopFuel_none oracle fuel 0 req [] (fun k => by simpa using hall k)
    rw [this] at hout
    exact Option.noConfusion hout
  · rintro ⟨n, hn⟩
    have := loopFuel_isSome oracle (n + 1) 0 req []
      ⟨n, Nat.lt_succ_self n, by simpa using hn⟩
    obtain ⟨out, hout⟩ := Option.isSome_iff_exists.mp this
    exact ⟨n + 1, out, hout⟩
  · intro h429 fuel
    exact loopFuel_none oracle fuel 0 req []
      (fun k => by simp [isExit, Nat.zero_add, h429 k])
  · intro h200 fuel
    refine loopFuel_none oracle fuel 0 req [] (fun k => ?_)
    obtain ⟨hs, u, hu⟩ := h200 k
    simp [isExit, Nat.zero_add, hs, hu]

/-- C6: the program is a pure function of the HTTP responses it receives:
two runs whose environments answer every request identically produce the
same serialized output data and the same console report.  The script has
no other input (the configuration is hardcoded), so re-running with
identical upstream data overwrites `top_filings.json` with identical
contents. -/
theorem deterministic_in_upstream (env1 env2 : String → Query → List HResp)
    (h : ∀ cl q, env1 cl q = env2 cl q) :
    outputFile env1 = outputFile env2 ∧
    consoleLobbyistLines env1 = consoleLobbyistLines env2 := by
  have he : env1 = env2 := funext fun cl => funext fun q => h cl q
  subst he
  exact ⟨rfl, rfl⟩

/-- Witness for C6 at the environment that answers every request with an
empty trace. -/
theorem deterministic_in_upstream_witness :
    outputFile (fun _ _ => []) = outputFile (fun _ _ => []) ∧
    consoleLobbyistLines (fun _ _ => []) = consoleLobbyistLines (fun _ _ => []) :=
  deterministic_in_upstream (fun _ _ => []) (fun _ _ => []) (fun _ _ => rfl)

/-- Every name kept by the lobbyist extraction is non-empty. -/
theorem keptNames_ne_empty (ls : List (Option String)) :
    ∀ x ∈ keptNames ls, x ≠ "" := by
  intro x hx
  obtain ⟨l, -, hl⟩ := List.mem_filterMap.mp hx
  match l with
  | none => exact absurd hl (by simp)
  | some n =>
    simp only at hl
    by_cases hne : n.isEmpty
    · rw [if_pos hne] at hl
      exact absurd hl (by simp)
    · rw [if_neg hne] at hl
      obtain rfl : n = x := Option.some_inj.mp hl
      exact fun hh => hne ((String.isEmpty_iff n).mpr hh)

/-- A comma join of a non-empty list of non-empty strings is non-empty. -/
theorem joinComma_ne_empty :
    ∀ l : List String, l ≠ [] → (∀ x ∈ l, x ≠ "") → joinComma l ≠ ""
  | [], h, _ => absurd rfl h
  | [a], _, hx => by simpa [joinComma] using hx a (List.mem_singleton_self a)
  | a :: b :: t, _, hx => by
    intro hcontra
    have hlen : (joinComma (a :: b :: t)).length = 0 := by rw [hcontra]; rfl
    rw [show joinComma (a :: b :: t) = a ++ ", " ++ joinComma (b :: t) from rfl] at hlen
    simp [String.length_append] at hlen
    exact absurd hlen.1.2 (by decide)

/-- C7: display/serialization asymmetry for lobbyist names.  For every
record produced by the loop body: the record (hence the JSON file entry)
carries the full extracted name list; the console line shows "N/A" when
that list is empty and otherwise the comma join of only the first five
names; and the ranking step never alters a record, so the file entry's
list is never capped (fourth conjunct: every selected record is one of
the collected records, unchanged). -/
theorem lobbyist_display_capped_file_not (t c : String) (f : RawFiling)
    (r : Ranked) (h : mkRanked t c f = some r) :
    r.lobbyists = keptNames f.lobbyists ∧
    (r.lobbyists = [] → lobbyistDisplay r = "N/A") ∧
    (r.lobbyists ≠ [] → lobbyistDisplay r = joinComma (r.lobbyists.take 5)) ∧
    (∀ (filings : List Ranked) (r2 : Ranked), r2 ∈ rank filings → r2 ∈ filings) := by
  obtain ⟨s, q, -, -, -, rfl⟩ := (mkRanked_eq_some t c f r).mp h
  refine ⟨rfl, fun hnil => ?_, fun hne => ?_, fun filings r2 h2 => ?_⟩
  · dsimp only [lobbyistDisplay] at hnil ⊢
    rw [hnil]
    rfl
  · dsimp only [lobbyistDisplay] at hne ⊢
    rw [if_neg]
    apply joinComma_ne_empty
    · simpa [List.take_eq_nil_iff] using hne
    · intro x hx
      exact keptNames_ne_empty f.lobbyists x (List.mem_of_mem_take hx)
  · have h3 : r2 ∈ sortFilings filings ∧
        r2.amount ∈ topAmounts (sortFilings filings) := by
      simpa [rank] using h2
    exact (List.mergeSort_perm filings _).mem_iff.mp h3.1

/-- Concrete evaluation: a filing with income string "0" passes the
truthiness filter (a non-empty string is truthy) and is kept with parsed
amount 0. -/
theorem mkRanked_zero_income :
    mkRanked "TCMD" "Tactile Medical" ⟨some "0", none, none, []⟩ =
      some ⟨"TCMD", "Tactile Medical", "?", 0, "", []⟩ := by
  rw [mkRanked_eq_some]
  refine ⟨"0", 0, rfl, by decide, ?_, ?_⟩
  · simp [parseFloat, trimChars, splitAtChar, digitsVal, digitVal]
  · have : ("" : String).take 10 = "" := by rw [String.take_eq]; rfl
    simp [keptNames, this]

/-- Counterexample to C3: the filter keeps a record whose income is the
string "0"; its amount is 0 ≤ 0, and with that record as the only
filtered filing it is selected into the result set (and hence the output
file).  So the filter does not guarantee positive amounts. -/
theorem positive_income_counterexample :
    mkRanked "TCMD" "Tactile Medical" ⟨some "0", none, none, []⟩ =
      some ⟨"TCMD", "Tactile Medical", "?", 0, "", []⟩ ∧
    (⟨"TCMD", "Tactile Medical", "?", 0, "", []⟩ : Ranked).amount ≤ 0 ∧
    rank [⟨"TCMD", "Tactile Medical", "?", 0, "", []⟩] =
      [⟨"TCMD", "Tactile Medical", "?", 0, "", []⟩] := by
  refine ⟨mkRanked_zero_income, le_refl 0, ?_⟩
  simp [rank, sortFilings, topAmounts, List.mergeSort_singleton,
    List.dedup_cons_of_not_mem]

/-- C3 as amended: the filter keeps exactly the records whose income
field is a non-empty string that parses as a float, and the record's
amount is that parsed value — the parsed value is not required to be
positive (income "0" yields amount 0, a negative literal a negative
amount), so amounts ≤ 0 can reach the result set and the output file. -/
theorem amount_is_parsed_income (t c : String) (f : RawFiling) (r : Ranked)
    (h : mkRanked t c f = some r) :
    ∃ s, f.income = some s ∧ s.isEmpty = false ∧ parseFloat s = some r.amount := by
  obtain ⟨s, q, hs, hse, hp, rfl⟩ := (mkRanked_eq_some t c f r).mp h
  exact ⟨s, hs, hse, hp⟩

/-- Witness for the amended C3 at the income-"0" filing. -/
theorem amount_is_parsed_income_witness :
    ∃ s, (⟨some "0", none, none, []⟩ : RawFiling).income = some s ∧
      s.isEmpty = false ∧
      parseFloat s = some (⟨"TCMD", "Tactile Medical", "?", 0, "", []⟩ : Ranked).amount :=
  amount_is_parsed_income "TCMD" "Tactile Medical" _ _ mkRanked_zero_income

/-- In a descending-sorted duplicate-free list, an element lies among
the first n entries exactly when fewer than n elements of the list are
strictly greater than it. -/
theorem mem_take_sorted_desc :
    ∀ (L : List ℚ) (n : Nat) (a : ℚ),
      L.Pairwise (fun x y => y ≤ x) → L.Nodup →
      (a ∈ L.take n ↔
        a ∈ L ∧ (L.filter fun b => decide (a < b)).length < n)
  | [], n, a, _, _ => by simp
  | x :: t, 0, a, _, _ => by simp
  | x :: t, n + 1, a, hs, hnd => by
    obtain ⟨hx, ht⟩ := List.pairwise_cons.mp hs
    obtain ⟨hnx, hnt⟩ := List.nodup_cons.mp hnd
    have ih := mem_take_sorted_desc t n a ht hnt
    rw [List.take_succ_cons]
    by_cases hax : a = x
    · subst hax
      have hfilter : ((a :: t).filter fun b => decide (a < b)) = [] := by
        rw [List.filter_eq_nil_iff]
        intro b hb
        rcases List.mem_cons.mp hb with rfl | hbt
        · simp
        · simpa using not_lt.mpr (hx b hbt)
      constructor
      · intro _
        exact ⟨List.mem_cons_self a t, by rw [hfilter]; exact Nat.succ_pos n⟩
      · intro _
        exact List.mem_cons_self a _
    · by_cases hat : a ∈ t
      · have halt : a < x := lt_of_le_of_ne (hx a hat) hax
        have hfilter : ((x :: t).filter fun b => decide (a < b))
            = x :: (t.filter fun b => decide (a < b)) := by
          simp [List.filter_cons, halt]
        constructor
        · intro hmem
          rcases List.mem_cons.mp hmem with rfl | hmem2
          · exact absurd rfl hax
          · have hlen := (ih.mp hmem2).2
            exact ⟨List.mem_cons_of_mem x hat, by
              rw [hfilter, List.length_cons]
              exact Nat.succ_lt_succ hlen⟩
        · rintro ⟨-, hlen⟩
          rw [hfilter, List.length_cons] at hlen
          exact List.mem_cons_of_mem x
            (ih.mpr ⟨hat, Nat.lt_of_succ_lt_succ hlen⟩)
      · constructor
        · intro hmem
          rcases List.mem_cons.mp hmem with rfl | hmem2
          · exact absurd rfl hax
          · exact absurd (List.mem_of_mem_take hmem2) hat
        · rintro ⟨hmem, -⟩
          rcases List.mem_cons.mp hmem with rfl | hmem2
          · exact absurd rfl hax
          · exact absurd hmem2 hat

/-- Transitivity obligation for the descending boolean order on ℚ. -/
theorem descQ_trans (a b c : ℚ) :
    decide (b ≤ a) → decide (c ≤ b) → decide (c ≤ a) := by
  intro h1 h2
  simp only [decide_eq_true_eq] at h1 h2 ⊢
  exact le_trans h2 h1

/-- Totality obligation for the descending boolean order on ℚ. -/
theorem descQ_total (a b : ℚ) : decide (b ≤ a) || decide (a ≤ b) := by
  simpa using le_total b a

/-- Membership in the top-three distinct amounts is equivalent to having
fewer than three distinct amounts strictly above. -/
theorem mem_topAmounts_iff (l : List Ranked) (a : ℚ) :
    a ∈ topAmounts l ↔
      a ∈ (l.map (·.amount)).dedup ∧
        (((l.map (·.amount)).dedup).filter fun b => decide (a < b)).length < 3 := by
  unfold topAmounts
  have hnd : ((l.map (·.amount)).dedup).Nodup := List.nodup_dedup _
  have hperm : List.Perm
      (((l.map (·.amount)).dedup).mergeSort (fun a b => decide (b ≤ a)))
      ((l.map (·.amount)).dedup) := List.mergeSort_perm _ _
  have hsorted : (((l.map (·.amount)).dedup).mergeSort
      (fun a b => decide (b ≤ a))).Pairwise (fun x y => y ≤ x) :=
    (List.sorted_mergeSort descQ_trans descQ_total _).imp
      (fun h => of_decide_eq_true h)
  have hndL : (((l.map (·.amount)).dedup).mergeSort
      (fun a b => decide (b ≤ a))).Nodup := hperm.nodup_iff.mpr hnd
  rw [mem_take_sorted_desc _ 3 a hsorted hndL, hperm.mem_iff,
    (hperm.filter _).length_eq]

/-- C1: a record is selected into the result set `top` iff it is one of
the filtered records and fewer than three distinct income amounts of the
filtered collection exceed its amount — that is, iff its amount is among
the top 3 distinct amounts (all ties included); when fewer than three
distinct amounts exist no record is excluded.  The second conjunct shows
the result set is, up to the sort's reordering, exactly the filtered
records whose amount is among the top three distinct values. -/
theorem top3_distinct_selection (filings : List Ranked) (r : Ranked) :
    (r ∈ rank filings ↔
      r ∈ filings ∧
        (((filings.map (·.amount)).dedup).filter
          fun b => decide (r.amount < b)).length < 3) ∧
    List.Perm (rank filings) (filings.filter
      (fun f => decide (f.amount ∈ topAmounts (sortFilings filings)))) := by
  have hperm : List.Perm (sortFilings filings) filings :=
    List.mergeSort_perm filings _
  have hpermA : List.Perm (((sortFilings filings).map (·.amount)).dedup)
      ((filings.map (·.amount)).dedup) := (hperm.map _).dedup
  constructor
  · constructor
    · intro h
      have h2 : r ∈ sortFilings filings ∧
          r.amount ∈ topAmounts (sortFilings filings) := by
        simpa [rank] using h
      have h3 := (mem_topAmounts_iff _ _).mp h2.2
      refine ⟨hperm.mem_iff.mp h2.1, ?_⟩
      rw [← (hpermA.filter _).length_eq]
      exact h3.2
    · rintro ⟨hmem, hlen⟩
      have hamem : r.amount ∈ ((sortFilings filings).map (·.amount)).dedup := by
        rw [List.mem_dedup]
        exact List.mem_map_of_mem _ (hperm.mem_iff.mpr hmem)
      have htop : r.amount ∈ topAmounts (sortFilings filings) :=
        (mem_topAmounts_iff _ _).mpr
          ⟨hamem, by rw [(hpermA.filter _).length_eq]; exact hlen⟩
      have : r ∈ (sortFilings filings).filter
          (fun f => decide (f.amount ∈ topAmounts (sortFilings filings))) :=
        List.mem_filter.mpr ⟨hperm.mem_iff.mpr hmem, by simpa using htop⟩
      simpa [rank] using this
  · exact hperm.filter _

/-- C9: ties are broken by accumulation order.  For every amount value,
the subsequence of the result set carrying that amount is exactly the
subsequence of the accumulated `filings` list carrying it (in the same
order) when the amount is selected, and empty otherwise: the descending
sort is stable and the selection filter preserves relative order, so
records with equal amounts appear in the output (console and JSON alike)
in the order they were accumulated. -/
theorem tie_order_preserved (filings : List Ranked) (a : ℚ) :
    (rank filings).filter (fun r => decide (r.amount = a)) =
      if a ∈ topAmounts (sortFilings filings) then
        filings.filter (fun r => decide (r.amount = a))
      else [] := by
  have hperm : List.Perm (sortFilings filings) filings :=
    List.mergeSort_perm filings _
  unfold rank
  rw [List.filter_filter]
  by_cases hmem : a ∈ topAmounts (sortFilings filings)
  · rw [if_pos hmem]
    have hcong : ∀ x ∈ sortFilings filings,
        (decide (x.amount = a) &&
          decide (x.amount ∈ topAmounts (sortFilings filings)))
          = decide (x.amount = a) := by
      intro x hx
      by_cases hxa : x.amount = a
      · simp [hxa, hmem]
      · simp [hxa]
    rw [List.filter_congr hcong]
    have hall : ∀ x ∈ filings.filter (fun r => decide (r.amount = a)),
        ∀ y ∈ filings.filter (fun r => decide (r.amount = a)),
          decide (y.amount ≤ x.amount) = true := by
      intro x hx y hy
      have hxa : x.amount = a := by
        simpa using List.of_mem_filter hx
      have hya : y.amount = a := by
        simpa using List.of_mem_filter hy
      simp [hxa, hya]
    have hsub : (filings.filter fun r => decide (r.amount = a)).Sublist
        (sortFilings filings) :=
      List.sublist_mergeSort
        (fun x y z h1 h2 => by
          simp only [decide_eq_true_eq] at h1 h2 ⊢
          exact le_trans h2 h1)
        (fun x y => by simpa using le_total y.amount x.amount)
        (List.pairwise_of_forall_mem_list hall)
        (List.filter_sublist filings)
    have hppeq : (filings.filter fun x =>
          decide (x.amount = a) && decide (x.amount = a))
        = filings.filter fun r => decide (r.amount = a) :=
      List.filter_congr
        (fun x _ => by cases hd : decide (x.amount = a) <;> simp [hd])
    have hsub2 : (filings.filter fun r => decide (r.amount = a)).Sublist
        ((sortFilings filings).filter fun r => decide (r.amount = a)) := by
      have h4 := hsub.filter (fun r => decide (r.amount = a))
      rwa [List.filter_filter, hppeq] at h4
    have hlen : ((sortFilings filings).filter
        fun r => decide (r.amount = a)).length
          = (filings.filter fun r => decide (r.amount = a)).length :=
      (hperm.filter _).length_eq
    exact (hsub2.eq_of_length hlen.symm).symm
  · rw [if_neg hmem]
    rw [List.filter_eq_nil_iff]
    intro x hx
    by_cases hxa : x.amount = a
    · simp [hxa, hmem]
    · simp [hxa]

/-- Witness for C4: one 429 response before a final successful page is
retried against the same request with a 10-second sleep. -/
theorem rate_limit_retries_same_request_witness :
    fetchFilterAux ⟨API_URL, none⟩
        ([⟨429, [], none⟩] ++ [⟨200, [], none⟩]) =
      ⟨(fetchFilterAux ⟨API_URL, none⟩ [⟨200, [], none⟩]).records,
       ([(⟨429, [], none⟩ : HResp)].map fun _ => (⟨API_URL, none⟩ : Req))
         ++ (fetchFilterAux ⟨API_URL, none⟩ [⟨200, [], none⟩]).reqs,
       ([(⟨429, [], none⟩ : HResp)].map fun _ => (10 : ℚ))
         ++ (fetchFilterAux ⟨API_URL, none⟩ [⟨200, [], none⟩]).sleeps⟩ :=
  (rate_limit_retries_same_request ⟨API_URL, none⟩ [⟨200, [], none⟩]
    [⟨429, [], none⟩] (by simp)).1

/-- Response trace used by the C5 witness: one successful page, then an
HTTP 500. -/
def sampleTrace : List HResp :=
  [⟨200, [⟨some "1000000", none, none, []⟩], some "page2"⟩, ⟨500, [], none⟩]

/-- Witness for C5: with every filter answered by `sampleTrace`, the
fourth-quarter filter stops at the 500 but keeps its first page, and the
three remaining filters still contribute their records. -/
theorem http_error_truncates_filter_only_witness :
    fetch "Acme" (fun _ => sampleTrace)
      = [(⟨some "1000000", none, none, []⟩ : RawFiling)]
        ++ ((fetchFilterAux (initReq ⟨"Acme", 2024, "first_quarter"⟩)
              sampleTrace).records
        ++ ((fetchFilterAux (initReq ⟨"Acme", 2024, "second_quarter"⟩)
              sampleTrace).records
        ++ (fetchFilterAux (initReq ⟨"Acme", 2024, "third_quarter"⟩)
              sampleTrace).records)) :=
  (http_error_truncates_filter_only "Acme" (fun _ => sampleTrace)
    [([⟨some "1000000", none, none, []⟩], "page2")] 500 [] none []
    (by decide) (by decide) rfl).1

/-- Concrete evaluation of the loop body on a filing with a timestamp. -/
theorem mkRanked_date_eval :
    mkRanked "AAPL" "Apple" ⟨some "100", none, some "2024-01-15T10:00:00", []⟩ =
      some ⟨"AAPL", "Apple", "?", 100, "2024-01-15", []⟩ := by
  rw [mkRanked_eq_some]
  refine ⟨"100", 100, rfl, by decide, ?_, ?_⟩
  · simp [parseFloat, trimChars, splitAtChar, digitsVal, digitVal]
  · have h10 : ("2024-01-15T10:00:00" : String).take 10 = "2024-01-15" := by
      rw [String.take_eq]; rfl
    simp [keptNames, h10]

/-- Witness for C8 at a concrete 19-character timestamp. -/
theorem date_is_truncation_witness :
    (⟨"AAPL", "Apple", "?", 100, "2024-01-15", []⟩ : Ranked).date
        = ("2024-01-15T10:00:00" : String).take 10 ∧
    (⟨"AAPL", "Apple", "?", 100, "2024-01-15", []⟩ : Ranked).date.length
        = min 10 ("2024-01-15T10:00:00" : String).length ∧
    (("2024-01-15T10:00:00" : String).length ≤ 10 →
      (⟨"AAPL", "Apple", "?", 100, "2024-01-15", []⟩ : Ranked).date
        = "2024-01-15T10:00:00") :=
  (date_is_truncation "AAPL" "Apple" _ _ mkRanked_date_eval).2
    "2024-01-15T10:00:00" rfl

/-- Concrete evaluation of the loop body on a filing with six lobbyist
names. -/
theorem mkRanked_sixlobby_eval :
    mkRanked "MSFT" "Microsoft" ⟨some "250000", none, none,
        [some "Ann", some "Bob", some "Cal", some "Dee", some "Eli", some "Fay"]⟩ =
      some ⟨"MSFT", "Microsoft", "?", 250000, "",
        ["Ann", "Bob", "Cal", "Dee", "Eli", "Fay"]⟩ := by
  rw [mkRanked_eq_some]
  refine ⟨"250000", 250000, rfl, by decide, ?_, ?_⟩
  · simp [parseFloat, trimChars, splitAtChar, digitsVal, digitVal]
  · have h0 : ("" : String).take 10 = "" := by rw [String.take_eq]; rfl
    simp only [keptNames, h0]
    decide

/-- Witness for C7: a record with six names keeps all six in the data
written to the file, while the console line joins only the first five. -/
theorem lobbyist_display_capped_file_not_witness :
    (⟨"MSFT", "Microsoft", "?", 250000, "",
        ["Ann", "Bob", "Cal", "Dee", "Eli", "Fay"]⟩ : Ranked).lobbyists =
      keptNames [some "Ann", some "Bob", some "Cal", some "Dee",
        some "Eli", some "Fay"] ∧
    lobbyistDisplay ⟨"MSFT", "Microsoft", "?", 250000, "",
        ["Ann", "Bob", "Cal", "Dee", "Eli", "Fay"]⟩ =
      joinComma ((["Ann", "Bob", "Cal", "Dee", "Eli", "Fay"] : List String).take 5) :=
  ⟨(lobbyist_display_capped_file_not "MSFT" "Microsoft" _ _
      mkRanked_sixlobby_eval).1,
   (lobbyist_display_capped_file_not "MSFT" "Microsoft" _ _
      mkRanked_sixlobby_eval).2.2.1 (by simp)⟩

end Lobby
